import Mathlib

/-
Shallow embedding of the FastAPI To-Do application (src/main.py, src/database.py).

The persistent state is the single `todos` table, modelled as a list of rows in
rowid order.  The SQLAlchemy model `ToDoDB` declares `title` and `description`
as nullable string columns (no `nullable=False`), so a stored row carries
`Option String` for both; the API-level pydantic schema `ToDoSchema` requires
`title : str` and defaults `description` to null and `completed` to false.
SQLite assigns the primary key of an inserted row (an INTEGER PRIMARY KEY,
hence a rowid alias, declared without AUTOINCREMENT) as one more than the
largest rowid currently in the table, or 1 when the table is empty; this
id-assignment step, performed by the storage engine on `db.commit()`, is
modelled by `nextId`.

Each of the five handlers takes the table before the request and returns the
HTTP-level response together with the table after the request.  A raised
`HTTPException` becomes `Except.error`.  The query
`db.query(ToDoDB).filter(ToDoDB.id == todo_id).first()` is `List.find?` on the
id; the `setattr` loop of `update_todo` writes exactly the keys of
`updated_todo.dict()`, i.e. `title`, `description`, `completed` (the schema has
no `id` field), onto the first matching row.
-/

namespace ToDoApp

/-- A persisted row of the `todos` table (SQLAlchemy model `ToDoDB`).
`title` and `description` are nullable string columns. -/
structure ToDoDB where
  id : Nat
  title : Option String
  description : Option String
  completed : Bool
deriving Repr, DecidableEq

/-- The validated request payload (pydantic `ToDoSchema`): `title` required,
`description` defaults to null, `completed` defaults to false. -/
structure ToDoSchema where
  title : String
  description : Option String := none
  completed : Bool := false
deriving Repr, DecidableEq

/-- An HTTP error response, as raised by `HTTPException(status_code, detail)`. -/
structure HTTPErr where
  status_code : Nat
  detail : String
deriving Repr, DecidableEq

/-- The body returned by a successful DELETE. -/
structure DeleteResponse where
  message : String
deriving Repr, DecidableEq

/-- The table state: all rows, in rowid order. -/
abbrev Table := List ToDoDB

/-- SQLite rowid assignment for an INTEGER PRIMARY KEY without AUTOINCREMENT:
one more than the largest id currently stored (1 on an empty table). -/
def nextId (db : Table) : Nat :=
  (db.map ToDoDB.id).foldr max 0 + 1

/-- Handler `create_todo` (POST /todos/): insert a row built from the payload,
the storage engine assigns the id; returns the created row. -/
def create_todo (todo : ToDoSchema) (db : Table) : ToDoDB × Table :=
  let db_todo : ToDoDB :=
    { id := nextId db
      title := some todo.title
      description := todo.description
      completed := todo.completed }
  (db_todo, db ++ [db_todo])

/-- Handler `get_todos` (GET /todos/): return all rows; the table is untouched. -/
def get_todos (db : Table) : List ToDoDB × Table :=
  (db, db)

/-- Handler `get_todo` (GET /todos/id): first row with the given id,
or 404 with detail "To-Do not found". -/
def get_todo (todo_id : Nat) (db : Table) : Except HTTPErr ToDoDB × Table :=
  match db.find? (fun r => r.id == todo_id) with
  | none => (Except.error { status_code := 404, detail := "To-Do not found" }, db)
  | some todo => (Except.ok todo, db)

/-- The `setattr` loop of `update_todo`: write every key of
`updated_todo.dict()` (`title`, `description`, `completed`; the schema has no
`id` key) onto the row. -/
def applyPayload (todo : ToDoDB) (updated : ToDoSchema) : ToDoDB :=
  { todo with
      title := some updated.title
      description := updated.description
      completed := updated.completed }

/-- Replace the first element satisfying `p` by its image under `f`. -/
def updateFirst (p : ToDoDB → Bool) (f : ToDoDB → ToDoDB) : Table → Table
  | [] => []
  | r :: rs => if p r then f r :: rs else r :: updateFirst p f rs

/-- Remove the first element satisfying `p`. -/
def eraseFirst (p : ToDoDB → Bool) : Table → Table
  | [] => []
  | r :: rs => if p r then rs else r :: eraseFirst p rs

/-- Handler `update_todo` (PUT /todos/id): 404 if no row has the id, else
overwrite `title`, `description`, `completed` of the first matching row with
the payload values and return the updated row. -/
def update_todo (todo_id : Nat) (updated_todo : ToDoSchema) (db : Table) :
    Except HTTPErr ToDoDB × Table :=
  match db.find? (fun r => r.id == todo_id) with
  | none => (Except.error { status_code := 404, detail := "To-Do not found" }, db)
  | some todo =>
      (Except.ok (applyPayload todo updated_todo),
       updateFirst (fun r => r.id == todo_id) (fun r => applyPayload r updated_todo) db)

/-- Handler `delete_todo` (DELETE /todos/id): 404 if no row has the id, else
remove the first matching row and return the confirmation message. -/
def delete_todo (todo_id : Nat) (db : Table) :
    Except HTTPErr DeleteResponse × Table :=
  match db.find? (fun r => r.id == todo_id) with
  | none => (Except.error { status_code := 404, detail := "To-Do not found" }, db)
  | some _ =>
      (Except.ok { message := "To-Do deleted successfully" },
       eraseFirst (fun r => r.id == todo_id) db)

/-- One HTTP request against the service. -/
inductive Op where
  | create (payload : ToDoSchema)
  | listAll
  | get (todo_id : Nat)
  | update (todo_id : Nat) (payload : ToDoSchema)
  | delete (todo_id : Nat)
deriving Repr, DecidableEq

/-- The table after one request. -/
def step (db : Table) : Op → Table
  | .create p => (create_todo p db).2
  | .listAll => (get_todos db).2
  | .get i => (get_todo i db).2
  | .update i p => (update_todo i p db).2
  | .delete i => (delete_todo i db).2

/-- The table after a sequence of requests starting from `db`. -/
def runFrom (db : Table) : List Op → Table
  | [] => db
  | op :: ops => runFrom (step db op) ops

/-- Whether one request succeeds (does not raise a 404) on the given table. -/
def opOk (db : Table) : Op → Bool
  | .create _ => true
  | .listAll => true
  | .get i => db.any (fun r => r.id == i)
  | .update i _ => db.any (fun r => r.id == i)
  | .delete i => db.any (fun r => r.id == i)

/-- Whether every request of the sequence succeeds, executed in order. -/
def opsOk (db : Table) : List Op → Bool
  | [] => true
  | op :: ops => opOk db op && opsOk (step db op) ops

/-- Number of POST (create) requests in a sequence. -/
def numCreates : List Op → Nat
  | [] => 0
  | Op.create _ :: ops => numCreates ops + 1
  | _ :: ops => numCreates ops

/-- Number of DELETE requests in a sequence. -/
def numDeletes : List Op → Nat
  | [] => 0
  | Op.delete _ :: ops => numDeletes ops + 1
  | _ :: ops => numDeletes ops

/-! Helper lemmas. -/

theorem applyPayload_id (r : ToDoDB) (p : ToDoSchema) :
    (applyPayload r p).id = r.id := rfl

theorem applyPayload_idem (r : ToDoDB) (p : ToDoSchema) :
    applyPayload (applyPayload r p) p = applyPayload r p := rfl

theorem find_none_of_no_id {db : Table} {i : Nat} (h : ∀ r ∈ db, r.id ≠ i) :
    db.find? (fun r => r.id == i) = none := by
  refine List.find?_eq_none.mpr ?_
  intro x hx
  simpa using h x hx

theorem find_updateFirst {db : Table} {i : Nat} {p : ToDoSchema} {todo : ToDoDB}
    (h : db.find? (fun r => r.id == i) = some todo) :
    (updateFirst (fun r => r.id == i) (fun r => applyPayload r p) db).find?
        (fun r => r.id == i) = some (applyPayload todo p) := by
  induction db with
  | nil => simp [List.find?] at h
  | cons r rs ih =>
      by_cases hq : (r.id == i) = true
      · rw [List.find?_cons_of_pos (p := fun x : ToDoDB => x.id == i) rs hq] at h
        cases h
        simp only [updateFirst, hq, if_pos]
        exact List.find?_cons_of_pos (a := applyPayload todo p) rs
          (by simpa [applyPayload] using hq)
      · rw [List.find?_cons_of_neg (p := fun x : ToDoDB => x.id == i) rs hq] at h
        simp only [updateFirst, hq, if_neg, Bool.false_eq_true, not_false_iff]
        rw [List.find?_cons_of_neg (p := fun x : ToDoDB => x.id == i) _ hq]
        exact ih h

theorem updateFirst_fix {i : Nat} {p : ToDoSchema} (db : Table) :
    updateFirst (fun r => r.id == i) (fun r => applyPayload r p)
        (updateFirst (fun r => r.id == i) (fun r => applyPayload r p) db) =
      updateFirst (fun r => r.id == i) (fun r => applyPayload r p) db := by
  induction db with
  | nil => rfl
  | cons r rs ih =>
      by_cases hq : (r.id == i) = true
      · simp only [updateFirst, hq, if_pos, applyPayload_id, applyPayload_idem]
      · simp only [updateFirst, hq, if_neg, Bool.false_eq_true, not_false_iff, ih]

theorem id_le_foldr_max {db : Table} {r : ToDoDB} (h : r ∈ db) :
    r.id ≤ (db.map ToDoDB.id).foldr max 0 := by
  induction db with
  | nil => cases h
  | cons x xs ih =>
      simp only [List.map_cons, List.foldr_cons]
      rcases List.mem_cons.mp h with h1 | h2
      · exact h1 ▸ le_max_left _ _
      · exact le_trans (ih h2) (le_max_right _ _)

theorem id_lt_nextId {db : Table} {r : ToDoDB} (h : r ∈ db) :
    r.id < nextId db :=
  Nat.lt_succ_of_le (id_le_foldr_max h)

theorem eraseFirst_no_id {i : Nat} {db : Table}
    (hnd : (db.map ToDoDB.id).Nodup) :
    ∀ x ∈ eraseFirst (fun r => r.id == i) db, x.id ≠ i := by
  induction db with
  | nil => intro x hx; cases hx
  | cons r rs ih =>
      obtain ⟨hr, hrs⟩ : (∀ x ∈ rs, ¬x.id = r.id) ∧ (rs.map ToDoDB.id).Nodup :=
        by simpa using hnd
      by_cases hq : (r.id == i) = true
      · intro x hx heq
        simp only [eraseFirst, hq, if_pos] at hx
        have hri : r.id = i := by simpa using hq
        exact hr x hx (heq.trans hri.symm)
      · intro x hx heq
        simp only [eraseFirst, hq, if_neg, Bool.false_eq_true, not_false_iff] at hx
        rcases List.mem_cons.mp hx with h1 | h2
        · exact hq (by simp [h1 ▸ heq])
        · exact ih hrs x h2 heq

/-! Claims. -/

/-- C1: PUT is a full replacement: on success the returned (and stored) row
carries exactly the payload values for `title`, `description` and `completed`
(optional fields omitted from the request already received their schema
defaults when `p` was validated), and applying the same PUT a second time
returns the same row and leaves the same stored table (idempotence). -/
theorem put_full_replacement (i : Nat) (p : ToDoSchema) (db : Table)
    (r : ToDoDB) (db' : Table)
    (h : update_todo i p db = (Except.ok r, db')) :
    r.title = some p.title ∧ r.description = p.description ∧
      r.completed = p.completed ∧
      update_todo i p db' = (Except.ok r, db') := by
  cases hf : db.find? (fun x => x.id == i) with
  | none =>
      rw [update_todo, hf] at h
      simp at h
  | some todo =>
      rw [update_todo, hf] at h
      simp only [Prod.mk.injEq, Except.ok.injEq] at h
      obtain ⟨h1, h2⟩ := h
      subst h1
      subst h2
      refine ⟨rfl, rfl, rfl, ?_⟩
      rw [update_todo, find_updateFirst hf]
      simp only [applyPayload_idem, updateFirst_fix]

/-- C1 witness: a concrete successful PUT on a one-row table. -/
theorem put_full_replacement_witness :
    (applyPayload ⟨1, some "a", some "d", true⟩ { title := "b" }).title =
        some ({ title := "b" } : ToDoSchema).title ∧
      (applyPayload ⟨1, some "a", some "d", true⟩ { title := "b" }).description =
        ({ title := "b" } : ToDoSchema).description ∧
      (applyPayload ⟨1, some "a", some "d", true⟩ { title := "b" }).completed =
        ({ title := "b" } : ToDoSchema).completed ∧
      update_todo 1 { title := "b" } [applyPayload ⟨1, some "a", some "d", true⟩ { title := "b" }] =
        (Except.ok (applyPayload ⟨1, some "a", some "d", true⟩ { title := "b" }),
         [applyPayload ⟨1, some "a", some "d", true⟩ { title := "b" }]) :=
  put_full_replacement 1 { title := "b" } [⟨1, some "a", some "d", true⟩]
    (applyPayload ⟨1, some "a", some "d", true⟩ { title := "b" })
    [applyPayload ⟨1, some "a", some "d", true⟩ { title := "b" }] rfl

/-- C2: GET on an id held by no stored row returns 404 with detail
"To-Do not found" and GET on an id held by a stored row (unique, as stored ids
always are) returns that row; the table is unchanged in both cases. -/
theorem get_todo_spec (i : Nat) (db : Table) :
    ((∀ r ∈ db, r.id ≠ i) →
      get_todo i db =
        (Except.error { status_code := 404, detail := "To-Do not found" }, db)) ∧
    (∀ r, r ∈ db → r.id = i → (∀ x ∈ db, x.id = i → x = r) →
      get_todo i db = (Except.ok r, db)) := by
  constructor
  · intro h
    rw [get_todo, find_none_of_no_id h]
  · intro r hr hid huniq
    cases hf : db.find? (fun x => x.id == i) with
    | none =>
        exact absurd (by simpa using hid) (by simpa using List.find?_eq_none.mp hf r hr)
    | some a =>
        have ha : a ∈ db := List.mem_of_find?_eq_some hf
        have hai : a.id = i := by simpa using List.find?_some hf
        rw [get_todo, hf, huniq a ha hai]

/-- C2 witness: concrete 404 on the empty table and a concrete hit. -/
theorem get_todo_spec_witness :
    get_todo 5 [] =
        (Except.error { status_code := 404, detail := "To-Do not found" }, []) ∧
      get_todo 1 [⟨1, some "a", none, false⟩] =
        (Except.ok ⟨1, some "a", none, false⟩, [⟨1, some "a", none, false⟩]) :=
  ⟨(get_todo_spec 5 []).1 (by intro r hr; cases hr),
   (get_todo_spec 1 [⟨1, some "a", none, false⟩]).2
      ⟨1, some "a", none, false⟩ (by decide) rfl (by decide)⟩

/-- C3: PUT on an id held by no stored row returns 404 with detail
"To-Do not found" and leaves the stored table exactly as it was: no row is
created under that id or any other. -/
theorem put_missing_404_no_create (i : Nat) (p : ToDoSchema) (db : Table)
    (h : ∀ r ∈ db, r.id ≠ i) :
    update_todo i p db =
      (Except.error { status_code := 404, detail := "To-Do not found" }, db) := by
  rw [update_todo, find_none_of_no_id h]

/-- C3 witness: a concrete PUT on an absent id. -/
theorem put_missing_404_no_create_witness :
    update_todo 7 { title := "x" } [⟨1, some "a", none, false⟩] =
      (Except.error { status_code := 404, detail := "To-Do not found" },
       [⟨1, some "a", none, false⟩]) :=
  put_missing_404_no_create 7 { title := "x" } [⟨1, some "a", none, false⟩]
    (by decide)

/-- C4: creating from a payload that supplies only `title` (so that the schema
defaults fill in `description` and `completed`) stores a row with
`completed = false` and `description = null`, and GET on the new row's id
returns exactly that row. -/
theorem create_applies_defaults (t : String) (db : Table) :
    (create_todo { title := t } db).1.completed = false ∧
    (create_todo { title := t } db).1.description = none ∧
    get_todo (create_todo { title := t } db).1.id (create_todo { title := t } db).2 =
      (Except.ok (create_todo { title := t } db).1,
       (create_todo { title := t } db).2) := by
  refine ⟨rfl, rfl, ?_⟩
  show get_todo (nextId db) (db ++ [⟨nextId db, some t, none, false⟩]) =
    (Except.ok (⟨nextId db, some t, none, false⟩ : ToDoDB),
     db ++ [⟨nextId db, some t, none, false⟩])
  have hnone : db.find? (fun r => r.id == nextId db) = none :=
    find_none_of_no_id fun r hr => Nat.ne_of_lt (id_lt_nextId hr)
  have hfind : (db ++ [(⟨nextId db, some t, none, false⟩ : ToDoDB)]).find?
      (fun r => r.id == nextId db) = some ⟨nextId db, some t, none, false⟩ := by
    rw [List.find?_append, hnone]
    simp
  rw [get_todo, hfind]

/-- C5: DELETE on an id held by a stored row (stored ids being pairwise
distinct) answers with the message "To-Do deleted successfully" and removes
the row, so that a subsequent GET on the same id returns 404 with detail
"To-Do not found". -/
theorem delete_then_get_404 (i : Nat) (db : Table)
    (hnd : (db.map ToDoDB.id).Nodup) (r : ToDoDB) (hr : r ∈ db)
    (hid : r.id = i) :
    ∃ db', delete_todo i db =
        (Except.ok { message := "To-Do deleted successfully" }, db') ∧
      get_todo i db' =
        (Except.error { status_code := 404, detail := "To-Do not found" }, db') := by
  cases hf : db.find? (fun x => x.id == i) with
  | none =>
      exact absurd (by simpa using hid)
        (by simpa using List.find?_eq_none.mp hf r hr)
  | some a =>
      refine ⟨eraseFirst (fun x => x.id == i) db, ?_, ?_⟩
      · rw [delete_todo, hf]
      · rw [get_todo, find_none_of_no_id (eraseFirst_no_id hnd)]

/-- C5 witness: deleting the only row of a one-row table. -/
theorem delete_then_get_404_witness :
    ∃ db', delete_todo 1 [⟨1, some "a", none, false⟩] =
        (Except.ok { message := "To-Do deleted successfully" }, db') ∧
      get_todo 1 db' =
        (Except.error { status_code := 404, detail := "To-Do not found" }, db') :=
  delete_then_get_404 1 [⟨1, some "a", none, false⟩] (by decide)
    ⟨1, some "a", none, false⟩ (by decide) rfl

/-! More helper lemmas, on the table after each operation. -/

theorem get_todo_table (i : Nat) (db : Table) : (get_todo i db).2 = db := by
  cases hf : db.find? (fun r => r.id == i) <;> rw [get_todo, hf]

theorem updateFirst_map_id (i : Nat) (p : ToDoSchema) (db : Table) :
    (updateFirst (fun r => r.id == i) (fun r => applyPayload r p) db).map ToDoDB.id =
      db.map ToDoDB.id := by
  induction db with
  | nil => rfl
  | cons r rs ih =>
      by_cases hq : (r.id == i) = true
      · simp [updateFirst, hq, applyPayload_id]
      · simp [updateFirst, hq, ih]

theorem update_todo_map_id (i : Nat) (p : ToDoSchema) (db : Table) :
    ((update_todo i p db).2).map ToDoDB.id = db.map ToDoDB.id := by
  cases hf : db.find? (fun r => r.id == i) with
  | none => rw [update_todo, hf]
  | some todo => rw [update_todo, hf]; exact updateFirst_map_id i p db

theorem eraseFirst_sublist (p : ToDoDB → Bool) (db : Table) :
    (eraseFirst p db).Sublist db := by
  induction db with
  | nil => exact List.Sublist.refl _
  | cons r rs ih =>
      by_cases hq : p r = true
      · simp only [eraseFirst, hq, if_pos]
        exact List.sublist_cons_self r rs
      · simp only [eraseFirst, hq, if_neg, Bool.false_eq_true, not_false_iff]
        exact ih.cons₂ r

theorem delete_todo_table_sublist (i : Nat) (db : Table) :
    ((delete_todo i db).2).Sublist db := by
  cases hf : db.find? (fun r => r.id == i) with
  | none => rw [delete_todo, hf]
  | some a => rw [delete_todo, hf]; exact eraseFirst_sublist _ db

theorem step_nodup (db : Table) (op : Op)
    (h : (db.map ToDoDB.id).Nodup) : ((step db op).map ToDoDB.id).Nodup := by
  cases op with
  | create p =>
      have hmap : ((create_todo p db).2).map ToDoDB.id =
          db.map ToDoDB.id ++ [nextId db] := by
        simp [create_todo]
      rw [step, hmap, List.nodup_append]
      refine ⟨h, List.nodup_singleton _, ?_⟩
      intro a ha hb
      obtain ⟨r, hr, hra⟩ := List.mem_map.mp ha
      have hab : a = nextId db := by simpa using hb
      exact absurd (hra.trans hab) (Nat.ne_of_lt (id_lt_nextId hr))
  | listAll => exact h
  | get i => rw [step, get_todo_table]; exact h
  | update i p => rw [step, update_todo_map_id]; exact h
  | delete i => exact (((delete_todo_table_sublist i db).map ToDoDB.id).nodup) h

theorem runFrom_nodup (ops : List Op) :
    ∀ db : Table, (db.map ToDoDB.id).Nodup →
      ((runFrom db ops).map ToDoDB.id).Nodup := by
  induction ops with
  | nil => intro db h; exact h
  | cons op ops ih => intro db h; exact ih _ (step_nodup db op h)

/-- C6 counterexample: ids are not unique across all rows ever created.
Create two rows (ids 1 and 2), delete row 2, create again: SQLite reuses
rowid 2, so the third created row carries the same id as the second created
row even though the second was created earlier. -/
theorem created_id_reused_cex :
    (create_todo { title := "t" }
        (delete_todo 2
          (create_todo { title := "t" }
            (create_todo { title := "t" } []).2).2).2).1.id =
      (create_todo { title := "t" } (create_todo { title := "t" } []).2).1.id :=
  rfl

/-- C6 amended: the id of each created row is distinct from the id of every
row stored at creation time, and in every reachable state the stored ids are
pairwise distinct; ids of deleted rows, however, may be reused by later
creations. -/
theorem create_id_fresh_and_ids_nodup :
    (∀ (p : ToDoSchema) (db : Table) (r : ToDoDB), r ∈ db →
        r.id ≠ (create_todo p db).1.id) ∧
    (∀ ops : List Op, ((runFrom [] ops).map ToDoDB.id).Nodup) := by
  constructor
  · intro p db r hr
    exact Nat.ne_of_lt (id_lt_nextId hr)
  · intro ops
    exact runFrom_nodup ops [] (by simp)

/-- C6 amended witness: the id created on a concrete one-row table is fresh. -/
theorem create_id_fresh_and_ids_nodup_witness :
    (⟨1, some "a", none, false⟩ : ToDoDB).id ≠
      (create_todo { title := "x" } [⟨1, some "a", none, false⟩]).1.id :=
  create_id_fresh_and_ids_nodup.1 { title := "x" } [⟨1, some "a", none, false⟩]
    ⟨1, some "a", none, false⟩ (by decide)

/-! Length bookkeeping for C7. -/

theorem updateFirst_length (p : ToDoDB → Bool) (f : ToDoDB → ToDoDB)
    (db : Table) : (updateFirst p f db).length = db.length := by
  induction db with
  | nil => rfl
  | cons r rs ih =>
      by_cases hq : p r = true
      · simp [updateFirst, hq]
      · simp [updateFirst, hq, ih]

theorem update_todo_length (i : Nat) (p : ToDoSchema) (db : Table) :
    ((update_todo i p db).2).length = db.length := by
  cases hf : db.find? (fun r => r.id == i) with
  | none => rw [update_todo, hf]
  | some todo => rw [update_todo, hf]; exact updateFirst_length _ _ db

theorem eraseFirst_length_of_any (p : ToDoDB → Bool) (db : Table)
    (h : db.any p = true) : (eraseFirst p db).length + 1 = db.length := by
  induction db with
  | nil => simp at h
  | cons r rs ih =>
      by_cases hq : p r = true
      · simp [eraseFirst, hq]
      · have hrs : rs.any p = true := by
          rcases List.any_eq_true.mp h with ⟨x, hx, hpx⟩
          rcases List.mem_cons.mp hx with h1 | h2
          · exact absurd (h1 ▸ hpx) hq
          · exact List.any_eq_true.mpr ⟨x, h2, hpx⟩
        simp only [eraseFirst, hq, if_neg, Bool.false_eq_true, not_false_iff,
          List.length_cons]
        have := ih hrs
        omega

theorem delete_todo_length_of_any (i : Nat) (db : Table)
    (h : db.any (fun r => r.id == i) = true) :
    ((delete_todo i db).2).length + 1 = db.length := by
  cases hf : db.find? (fun r => r.id == i) with
  | none =>
      obtain ⟨x, hx, hpx⟩ := List.any_eq_true.mp h
      exact absurd hpx (List.find?_eq_none.mp hf x hx)
  | some a =>
      rw [delete_todo, hf]
      exact eraseFirst_length_of_any _ db h

theorem runFrom_length (ops : List Op) :
    ∀ db : Table, opsOk db ops = true →
      (runFrom db ops).length + numDeletes ops = db.length + numCreates ops := by
  induction ops with
  | nil => intro db _; rfl
  | cons op ops ih =>
      intro db h
      obtain ⟨h1, h2⟩ : opOk db op = true ∧ opsOk (step db op) ops = true := by
        simpa [opsOk] using h
      have hrec := ih (step db op) h2
      cases op with
      | create p =>
          have hlen : (step db (Op.create p)).length = db.length + 1 := by
            simp [step, create_todo]
          show (runFrom (step db (Op.create p)) ops).length + numDeletes ops =
            db.length + (numCreates ops + 1)
          omega
      | listAll =>
          exact hrec
      | get i =>
          have hs : step db (Op.get i) = db := get_todo_table i db
          show (runFrom (step db (Op.get i)) ops).length + numDeletes ops =
            db.length + numCreates ops
          rw [hs] at hrec ⊢
          exact hrec
      | update i p =>
          have hlen : (step db (Op.update i p)).length = db.length :=
            update_todo_length i p db
          show (runFrom (step db (Op.update i p)) ops).length + numDeletes ops =
            db.length + numCreates ops
          omega
      | delete i =>
          have hlen : (step db (Op.delete i)).length + 1 = db.length :=
            delete_todo_length_of_any i db h1
          show (runFrom (step db (Op.delete i)) ops).length + (numDeletes ops + 1) =
            db.length + numCreates ops
          omega

/-- C7: starting from the empty table, after any sequence of requests in which
every request succeeds (in particular N creations and M deletions, the
deletions necessarily hitting distinct existing ids), the list endpoint
returns exactly N − M rows. -/
theorem list_length_counts (ops : List Op) (h : opsOk [] ops = true) :
    (get_todos (runFrom [] ops)).1.length = numCreates ops - numDeletes ops := by
  have hlen := runFrom_length ops [] h
  show (runFrom [] ops).length = numCreates ops - numDeletes ops
  simp only [List.length_nil] at hlen
  omega

/-- C7 witness: two creations followed by one deletion leave one row. -/
theorem list_length_counts_witness :
    (get_todos (runFrom []
        [Op.create { title := "a" }, Op.create { title := "b" }, Op.delete 1])).1.length =
      numCreates [Op.create { title := "a" }, Op.create { title := "b" }, Op.delete 1] -
        numDeletes [Op.create { title := "a" }, Op.create { title := "b" }, Op.delete 1] :=
  list_length_counts
    [Op.create { title := "a" }, Op.create { title := "b" }, Op.delete 1] (by decide)

/-! Positional and membership lemmas on updateFirst, for C8 and C9. -/

theorem updateFirst_getElem (p : ToDoDB → Bool) (f : ToDoDB → ToDoDB)
    (db : Table) (j : Nat) :
    (updateFirst p f db)[j]? = db[j]? ∨
      ∃ y, db[j]? = some y ∧ p y = true ∧ (updateFirst p f db)[j]? = some (f y) := by
  induction db generalizing j with
  | nil => left; rfl
  | cons r rs ih =>
      cases j with
      | zero =>
          by_cases hq : p r = true
          · right; exact ⟨r, by simp, hq, by simp [updateFirst, hq]⟩
          · left; simp [updateFirst, hq]
      | succ k =>
          by_cases hq : p r = true
          · left; simp [updateFirst, hq]
          · rcases ih k with h | ⟨y, h1, h2, h3⟩
            · left; simpa [updateFirst, hq] using h
            · right
              exact ⟨y, by simpa using h1, h2, by simpa [updateFirst, hq] using h3⟩

theorem mem_updateFirst {q : ToDoDB → Bool} {f : ToDoDB → ToDoDB} {db : Table}
    {x : ToDoDB} (hx : x ∈ updateFirst q f db) :
    x ∈ db ∨ ∃ y ∈ db, x = f y := by
  induction db with
  | nil => cases hx
  | cons r rs ih =>
      by_cases hq : q r = true
      · simp only [updateFirst, hq, if_pos] at hx
        rcases List.mem_cons.mp hx with h1 | h2
        · right; exact ⟨r, List.mem_cons_self r rs, h1⟩
        · left; exact List.mem_cons_of_mem r h2
      · simp only [updateFirst, hq, if_neg, Bool.false_eq_true, not_false_iff] at hx
        rcases List.mem_cons.mp hx with h1 | h2
        · left; exact h1 ▸ List.mem_cons_self r rs
        · rcases ih h2 with h3 | ⟨y, hy, hxy⟩
          · left; exact List.mem_cons_of_mem r h3
          · right; exact ⟨y, List.mem_cons_of_mem r hy, hxy⟩

/-- C8: the id of a row is assigned at creation and no later operation changes
it.  A successful PUT returns a row whose id is the targeted one, keeps the
table's id column unchanged, and at every position either leaves the row
untouched or rewrites only `title`, `description` and `completed` (keeping
`id`); creation leaves every existing row in place, and deletion only removes
rows, leaving the remaining rows themselves unchanged. -/
theorem id_immutable :
    (∀ (i : Nat) (p : ToDoSchema) (db : Table) (r : ToDoDB) (db' : Table),
        update_todo i p db = (Except.ok r, db') →
        r.id = i ∧ db'.map ToDoDB.id = db.map ToDoDB.id ∧
          ∀ j : Nat, db'[j]? = db[j]? ∨
            ∃ y, db[j]? = some y ∧ y.id = i ∧
              db'[j]? = some ⟨y.id, some p.title, p.description, p.completed⟩) ∧
    (∀ (p : ToDoSchema) (db : Table), ∀ x ∈ db, x ∈ (create_todo p db).2) ∧
    (∀ (i : Nat) (db : Table), ((delete_todo i db).2).Sublist db) := by
  refine ⟨?_, ?_, delete_todo_table_sublist⟩
  · intro i p db r db' h
    cases hf : db.find? (fun x => x.id == i) with
    | none => rw [update_todo, hf] at h; simp at h
    | some todo =>
        rw [update_todo, hf] at h
        simp only [Prod.mk.injEq, Except.ok.injEq] at h
        obtain ⟨h1, h2⟩ := h
        subst h1
        subst h2
        refine ⟨by simpa [applyPayload_id] using List.find?_some hf,
          updateFirst_map_id i p db, ?_⟩
        intro j
        rcases updateFirst_getElem (fun x => x.id == i)
            (fun x => applyPayload x p) db j with hc | ⟨y, hy1, hy2, hy3⟩
        · left; exact hc
        · right; exact ⟨y, hy1, by simpa using hy2, hy3⟩
  · intro p db x hx
    exact List.mem_append_left _ hx

/-- C8 witness: a concrete successful PUT keeps the targeted id and the id
column. -/
theorem id_immutable_witness :
    (applyPayload ⟨1, some "a", none, false⟩ { title := "b" }).id = 1 ∧
      ([applyPayload ⟨1, some "a", none, false⟩ { title := "b" }]).map ToDoDB.id =
        ([(⟨1, some "a", none, false⟩ : ToDoDB)]).map ToDoDB.id :=
  have h := id_immutable.1 1 { title := "b" } [⟨1, some "a", none, false⟩]
    (applyPayload ⟨1, some "a", none, false⟩ { title := "b" })
    [applyPayload ⟨1, some "a", none, false⟩ { title := "b" }] rfl
  ⟨h.1, h.2.1⟩

/-! Preservation of the non-null-title invariant, for C9. -/

theorem step_title (db : Table) (op : Op) (h : ∀ r ∈ db, r.title ≠ none) :
    ∀ r ∈ step db op, r.title ≠ none := by
  cases op with
  | create p =>
      intro r hr
      rcases List.mem_append.mp hr with h1 | h2
      · exact h r h1
      · have hr2 : r = ⟨nextId db, some p.title, p.description, p.completed⟩ := by
          simpa using h2
        rw [hr2]
        simp
  | listAll => exact h
  | get i => rw [step, get_todo_table]; exact h
  | update i p =>
      intro r hr
      cases hf : db.find? (fun x => x.id == i) with
      | none =>
          have hs : step db (Op.update i p) = db := by rw [step, update_todo, hf]
          rw [hs] at hr
          exact h r hr
      | some todo =>
          have hs : step db (Op.update i p) =
              updateFirst (fun x => x.id == i) (fun x => applyPayload x p) db := by
            rw [step, update_todo, hf]
          rw [hs] at hr
          rcases mem_updateFirst hr with h1 | ⟨y, hy, hxy⟩
          · exact h r h1
          · rw [hxy]
            simp [applyPayload]
  | delete i =>
      intro r hr
      exact h r ((delete_todo_table_sublist i db).subset hr)

/-- C9: every stored row has a non-null title.  Each single operation
preserves the predicate that the title column of every row is non-null, and
consequently the predicate holds in every state reachable from the empty
table through the five HTTP operations. -/
theorem title_never_null :
    (∀ (db : Table) (op : Op), (∀ r ∈ db, r.title ≠ none) →
        ∀ r ∈ step db op, r.title ≠ none) ∧
    (∀ ops : List Op, ∀ r ∈ runFrom [] ops, r.title ≠ none) := by
  refine ⟨step_title, ?_⟩
  intro ops
  have hgen : ∀ db : Table, (∀ r ∈ db, r.title ≠ none) →
      ∀ r ∈ runFrom db ops, r.title ≠ none := by
    induction ops with
    | nil => intro db h; exact h
    | cons op ops ih => intro db h; exact ih (step db op) (step_title db op h)
  refine hgen [] ?_
  intro r hr
  cases hr

/-- C9 witness: the row stored by a concrete creation has a non-null title. -/
theorem title_never_null_witness :
    (⟨1, some "a", none, false⟩ : ToDoDB).title ≠ none :=
  title_never_null.2 [Op.create { title := "a" }] ⟨1, some "a", none, false⟩
    (by decide)

/-- C10: the two read endpoints never modify stored state: for every table
and every id, present or absent, the table after List or Get equals the table
before it. -/
theorem reads_pure (i : Nat) (db : Table) :
    (get_todos db).2 = db ∧ (get_todo i db).2 = db :=
  ⟨rfl, get_todo_table i db⟩

end ToDoApp
